import Mathlib

/-
Verification development for the ship-lens extraction pipeline.

The definitions below are shallow embeddings of the Python source:
  - scripts/extract_component_hp.py   (component HP lookup build, per-ship merge)
  - src/extract_ship_parts_comprehensive.py (hardpoint mappings, categorization,
    thruster resolution, component aggregation)
  - scripts/extract_ship_loadouts.py  (recursive loadout walk, weapon dedup)
  - scripts/fix_missiles.py           (missile rack extraction)

Python dictionaries are modelled as association lists with in-place
replacement on key collision (preserving first-insertion position), matching
CPython dict semantics.  Python strings are modelled as Lean strings with
hand-rolled ASCII case folding and substring tests, because the source data
(XML identifiers) is ASCII.  Python `a in b` on strings is substring
containment, modelled by strHas.
-/

/-- ASCII lower-casing of one character (models str.lower on the ASCII data). -/
def lowChar (c : Char) : Char :=
  if 65 ≤ c.toNat ∧ c.toNat ≤ 90 then Char.ofNat (c.toNat + 32) else c

/-- ASCII upper-casing of one character (models str.upper on the ASCII data). -/
def upChar (c : Char) : Char :=
  if 97 ≤ c.toNat ∧ c.toNat ≤ 122 then Char.ofNat (c.toNat - 32) else c

/-- Models Python str.lower() for the ASCII identifiers in the data set. -/
def strLower (s : String) : String := String.mk (s.data.map lowChar)

/-- Models Python str.upper() for the ASCII identifiers in the data set. -/
def strUpper (s : String) : String := String.mk (s.data.map upChar)

/-- pat is a prefix of l (Boolean). -/
def chStarts : List Char → List Char → Bool
  | [], _ => true
  | _ :: _, [] => false
  | a :: as, b :: bs => a = b && chStarts as bs

/-- pat occurs somewhere in l (Boolean). -/
def chHas (p : List Char) : List Char → Bool
  | [] => p.isEmpty
  | l@(_ :: t) => chStarts p l || chHas p t

/-- Models Python membership test `pat in s` on strings (substring containment). -/
def strHas (pat s : String) : Bool := chHas pat.data s.data

/-- Models Python s.startswith(pat). -/
def strStarts (pat s : String) : Bool := chStarts pat.data s.data

/-- Worker for replaceStr; the Nat argument is a structural-recursion bound,
always called with the length of the list, which suffices because every step
consumes at least one character. -/
def replaceLoop (pat rep : List Char) : Nat → List Char → List Char
  | _, [] => []
  | 0, l => l
  | n + 1, c :: rest =>
      if chStarts pat (c :: rest) then rep ++ replaceLoop pat rep n ((c :: rest).drop pat.length)
      else c :: replaceLoop pat rep n rest

/-- Models Python s.replace(pat, rep): left-to-right, non-overlapping. -/
def replaceStr (s pat rep : String) : String :=
  String.mk (replaceLoop pat.data rep.data s.data.length s.data)

/-- Lookup in an association-list model of a Python dict (first matching key). -/
def dictGet {β : Type} : List (String × β) → String → Option β
  | [], _ => none
  | (k', v) :: rest, k => if k' = k then some v else dictGet rest k

/-- Insertion into an association-list model of a Python dict: `d[k] = v`
replaces the value in place if the key is present (keeping its position),
else appends, matching CPython insertion-order semantics. -/
def dictInsert {β : Type} : List (String × β) → String → β → List (String × β)
  | [], k, v => [(k, v)]
  | (k', v') :: rest, k, v => if k' = k then (k, v) :: rest else (k', v') :: dictInsert rest k v

/-- Value of the last element of l on which g fires (a later success
overrides an earlier one).  Used to state "the last record wins"
characterizations. -/
def lastOpt {α β : Type} (g : α → Option β) : List α → Option β
  | [] => none
  | x :: t => match lastOpt g t with | some v => some v | none => g x

/- ---------------------------------------------------------------------
   scripts/extract_component_hp.py : update_ship_json_files (merge)
   --------------------------------------------------------------------- -/

/-- The six categories of the hp_totals dict, in its insertion order. -/
inductive HpKey where
  | turret | powerplant | cooler | shieldGen | qd | thruster
deriving DecidableEq

/-- Iteration order of hp_totals.items(). -/
def hpKeys : List HpKey :=
  [HpKey.turret, HpKey.powerplant, HpKey.cooler, HpKey.shieldGen, HpKey.qd, HpKey.thruster]

/-- The parts of a persisted ship JSON record the merge touches:
ship_data['components'][key] per category, and ship_data['thrusters']['total_hp'].
A key absent from the JSON object is modelled as none. -/
structure ShipData where
  components : HpKey → Option Int
  thrustersTotalHp : Option Int

/-- Models lines updating ship_data['components'][key] when the stored value
differs from the computed one (the `changed` flag is set on update). -/
def mergeComp (hp : HpKey → Int) (acc : ShipData × Bool) (k : HpKey) : ShipData × Bool :=
  if acc.1.components k = some (hp k) then acc
  else ({ acc.1 with components := fun q => if q = k then some (hp k) else acc.1.components q }, true)

/-- Models the extra update of ship_data['thrusters']['total_hp'] performed
for the thruster_total_hp key only. -/
def mergeThr (hp : HpKey → Int) (acc : ShipData × Bool) (k : HpKey) : ShipData × Bool :=
  if k = HpKey.thruster then
    if acc.1.thrustersTotalHp = some (hp k) then acc
    else ({ acc.1 with thrustersTotalHp := some (hp k) }, true)
  else acc

/-- One iteration of `for key, value in hp_totals.items()` in
update_ship_json_files: both updates are guarded by `value > 0`. -/
def mergeStep (hp : HpKey → Int) (acc : ShipData × Bool) (k : HpKey) : ShipData × Bool :=
  if 0 < hp k then mergeThr hp (mergeComp hp acc k) k else acc

/-- The whole merge loop of update_ship_json_files for one ship: returns the
updated record and the `changed` flag (initially False). -/
def mergeShip (s : ShipData) (hp : HpKey → Int) : ShipData × Bool :=
  hpKeys.foldl (mergeStep hp) (s, false)

/-- A stored record with non-zero values everywhere, for concrete witnesses. -/
def sampleStoredShip : ShipData :=
  { components := fun _ => some 7, thrustersTotalHp := some 7 }

/-- An aggregate reporting zero for every category, for concrete witnesses. -/
def zeroAggregate : HpKey → Int := fun _ => 0

/- ---------------------------------------------------------------------
   scripts/extract_component_hp.py : build_component_hp_lookup
   --------------------------------------------------------------------- -/

/-- The data build_component_hp_lookup reads from one component XML file:
the filename (minus .xml), the root __ref GUID attribute ('' when absent),
and the Health attribute of SHealthComponentParams when present. -/
structure CompFile where
  name : String
  guid : String
  health : Option Int

/-- The all-zero GUID sentinel excluded from the GUID lookup. -/
def zeroGuid : String := "00000000-0000-0000-0000-000000000000"

/-- One file's processing in build_component_hp_lookup: record the GUID
mapping when the GUID is non-empty and non-sentinel, and the HP mapping when
a Health value was found; both use plain dict assignment. -/
def hpLookupStep (acc : List (String × Int) × List (String × String)) (f : CompFile) :
    List (String × Int) × List (String × String) :=
  let gl := if f.guid ≠ "" ∧ f.guid ≠ zeroGuid
    then dictInsert acc.2 (strLower f.guid) (strLower f.name) else acc.2
  let ch := match f.health with
    | some h => dictInsert acc.1 (strLower f.name) h
    | none => acc.1
  (ch, gl)

/-- build_component_hp_lookup over the component files in directory-traversal
order: returns (component name → HP, GUID → component name). -/
def buildComponentHpLookup (files : List CompFile) :
    List (String × Int) × List (String × String) :=
  files.foldl hpLookupStep ([], [])

/- ---------------------------------------------------------------------
   src/extract_ship_parts_comprehensive.py : categorize_hardpoints
   --------------------------------------------------------------------- -/

/-- The ten category buckets of categorize_hardpoints. -/
inductive HCat where
  | thrusters | turrets | armor | powerplant | cooler | shield
  | quantumdrive | weapons | missiles | other
deriving DecidableEq

/-- The if/elif chain in the body of categorize_hardpoints deciding which
bucket one (port_name, entity_class) pair lands in. -/
def classifyPair (port entity : String) : HCat :=
  if strHas "thruster" port || strHas "thruster" entity then HCat.thrusters
  else if strHas "turret" port || strHas "turret" entity then HCat.turrets
  else if strHas "armor" port || strHas "armr_" entity then HCat.armor
  else if strHas "power" port then HCat.powerplant
  else if strHas "cooler" port then HCat.cooler
  else if strHas "shield" port then HCat.shield
  else if strHas "quantum" port then HCat.quantumdrive
  else if strHas "weapon" port || strHas "gun" port then HCat.weapons
  else if strHas "missile" port || strHas "pylon" port then HCat.missiles
  else HCat.other

/-- categorize_hardpoints: iterates the mappings in order, appending each pair
to the single bucket selected by the if/elif chain. -/
def categorizeHardpoints (ms : List (String × String)) : HCat → List (String × String) :=
  ms.foldl (fun acc m c => if c = classifyPair m.1 m.2 then acc c ++ [m] else acc c) (fun _ => [])

/-- Declarative ordered rule table for the classifier, written from the
amended specification: thruster and turret rules test both port and entity;
the armor rule tests the armor keyword on the port or the armr_ marker in the
entity id; the powerplant, cooler, shield, quantum, weapon and missile rules
test the port name only. -/
def ruleTable : List ((String → String → Bool) × HCat) :=
  [ (fun p e => strHas "thruster" p || strHas "thruster" e, HCat.thrusters),
    (fun p e => strHas "turret" p || strHas "turret" e, HCat.turrets),
    (fun p e => strHas "armor" p || strHas "armr_" e, HCat.armor),
    (fun p _ => strHas "power" p, HCat.powerplant),
    (fun p _ => strHas "cooler" p, HCat.cooler),
    (fun p _ => strHas "shield" p, HCat.shield),
    (fun p _ => strHas "quantum" p, HCat.quantumdrive),
    (fun p _ => strHas "weapon" p || strHas "gun" p, HCat.weapons),
    (fun p _ => strHas "missile" p || strHas "pylon" p, HCat.missiles) ]

/-- First-match evaluation of the ordered rule table, defaulting to other. -/
def classifySpecOrdered (port entity : String) : HCat :=
  match ruleTable.find? (fun r => r.1 port entity) with
  | some r => r.2
  | none => HCat.other

/- ---------------------------------------------------------------------
   src/extract_ship_parts_comprehensive.py : thruster resolution
   (process_all_ships, thruster loop)
   --------------------------------------------------------------------- -/

/-- The fallback loop `for thruster_key in thruster_data.keys(): if
entity_lower in thruster_key or thruster_key in entity_lower: hp = ...; break`
with hp initialized to 0. -/
def approxThrusterScan (e : String) : List (String × Int) → Int
  | [] => 0
  | kv :: rest => if strHas e kv.1 || strHas kv.1 e then kv.2 else approxThrusterScan e rest

/-- The thruster HP resolution of process_all_ships: exact dict lookup of the
lowercased entity class first, else the first two-way-substring match over the
catalog keys in build order. -/
def resolveThrusterHp (td : List (String × Int)) (entity : String) : Int :=
  match dictGet td (strLower entity) with
  | some v => v
  | none => approxThrusterScan (strLower entity) td

/-- Strips the separator character, as the claim's normalization describes
(the source strips '_' in its armor ship-name fallback). -/
def stripSeps (s : String) : String := String.mk (s.data.filter (fun c => !(c == '_')))

/-- Modelled from the spec: the resolver the claim describes, whose
approximate step normalizes the raw id and every catalog key by stripping
separators before the two-way substring test.  Kept for comparison with the
source's resolveThrusterHp, which applies no such normalization. -/
def resolveThrusterHpClaim (td : List (String × Int)) (entity : String) : Int :=
  match dictGet td (strLower entity) with
  | some v => v
  | none =>
      match td.find? (fun kv =>
        strHas (stripSeps (strLower entity)) (stripSeps kv.1)
          || strHas (stripSeps kv.1) (stripSeps (strLower entity))) with
      | some kv => kv.2
      | none => 0

/-- The amended specification of the resolver: exact lookup first; the
approximate step tests the un-normalized lowercased raw id against each
catalog key for two-way substring containment, first match in build order. -/
def resolveThrusterHpOrdered (td : List (String × Int)) (entity : String) : Int :=
  match dictGet td (strLower entity) with
  | some v => v
  | none =>
      match td.find? (fun kv => strHas (strLower entity) kv.1 || strHas kv.1 (strLower entity)) with
      | some kv => kv.2
      | none => 0

/- ---------------------------------------------------------------------
   XML element model (ElementTree) shared by the loadout walk and the
   missile extraction.
   --------------------------------------------------------------------- -/

/-- An XML element: tag, attributes, ordered children. -/
inductive Xml where
  | elem (tag : String) (attrs : List (String × String)) (children : List Xml)

mutual
/-- All strict descendants of an element in document (preorder) order:
models ElementTree findall('.//tag') before tag filtering. -/
def descendants : Xml → List Xml
  | .elem _ _ cs => descList cs
/-- All elements of a forest in document order, each followed by its own
descendants. -/
def descList : List Xml → List Xml
  | [] => []
  | c :: cs => c :: descendants c ++ descList cs
end

mutual
/-- Number of elements in the tree (≥ 1). -/
def xsize : Xml → Nat
  | .elem _ _ cs => 1 + xsizeList cs
/-- Number of elements in a forest. -/
def xsizeList : List Xml → Nat
  | [] => 0
  | c :: cs => xsize c + xsizeList cs
end

/-- The element's tag. -/
def tagOf : Xml → String
  | .elem t _ _ => t

/-- Models Element.get(name, ''): attribute lookup with '' default. -/
def attrGet (x : Xml) (name : String) : String :=
  match x with
  | .elem _ attrs _ => (dictGet attrs name).getD ""

/-- Models element.findall('.//t'): strict descendants with the given tag. -/
def findAllTag (x : Xml) (t : String) : List Xml :=
  (descendants x).filter (fun c => tagOf c == t)

/-- Models element.iter(t): the element itself (when its tag matches) and all
descendants with the given tag, in document order. -/
def iterTag (x : Xml) (t : String) : List Xml :=
  (x :: descendants x).filter (fun c => tagOf c == t)

/- ---------------------------------------------------------------------
   scripts/extract_ship_loadouts.py : is_weapon_class, parse_loadout_entry
   --------------------------------------------------------------------- -/

/-- The manufacturer-style entity-class markers of is_weapon_class. -/
def weaponMarks : List String :=
  ["BEHR_", "KLWE_", "AMRS_", "GATS_", "APAR_", "KRIG_",
   "VNCL_", "TALN_", "MISL_", "AEGS_", "ANVL_", "HURSTON_",
   "JOKER_", "MAXOX_", "KBAR_", "SPCD_"]

/-- The weapon keywords of is_weapon_class. -/
def weaponKeywords : List String :=
  ["LASER", "CANNON", "REPEATER", "GATLING", "BALLISTIC",
   "MASS", "DRIVER", "DISTORTION", "TORPEDO", "MISSILE"]

/-- is_weapon_class: empty names are rejected; otherwise the uppercased name
is tested against the marker list (startswith) and the keyword list
(substring). -/
def isWeaponClass (name : String) : Bool :=
  if name = "" then false
  else
    weaponMarks.any (fun p => strStarts p (strUpper name))
      || weaponKeywords.any (fun k => strHas k (strUpper name))

/-- parse_loadout_entry with an explicit structural fuel.  The Python
function recurses only into strict descendants of its argument, so any fuel
of at least (xsize entry) computes the true recursion (the entry point below
passes exactly that); the depth argument mirrors the source's depth
parameter, which is threaded but never consulted.  The Python guard
`if sub_entry != entry` compares object identities and is always true for the
strict descendants produced by findall('.//...'), so it is modelled as a
no-op.  The result is: the entry's own weapon, then the weapons found under
loadout/SItemPortLoadoutManualParams/entries chains, then the weapons found
under all directly enumerated descendant entries. -/
def parseLoadoutFuel : Nat → Xml → Nat → List (String × String)
  | 0, _, _ => []
  | fuel + 1, entry, depth =>
      let portName := attrGet entry "itemPortName"
      let entityClass := attrGet entry "entityClassName"
      let direct :=
        if entityClass ≠ "" ∧ isWeaponClass entityClass
        then [(portName, strLower entityClass)] else []
      let fromLoadouts :=
        (findAllTag entry "loadout").flatMap (fun l =>
          (findAllTag l "SItemPortLoadoutManualParams").flatMap (fun mp =>
            (findAllTag mp "entries").flatMap (fun es =>
              (findAllTag es "SItemPortLoadoutEntryParams").flatMap (fun se =>
                parseLoadoutFuel fuel se (depth + 1)))))
      let fromDirect :=
        (findAllTag entry "SItemPortLoadoutEntryParams").flatMap (fun se =>
          parseLoadoutFuel fuel se (depth + 1))
      direct ++ fromLoadouts ++ fromDirect

/-- parse_loadout_entry(entry, depth): the fuel xsize entry always suffices. -/
def parseLoadoutEntry (entry : Xml) (depth : Nat) : List (String × String) :=
  parseLoadoutFuel (xsize entry) entry depth

/-- The weapon accumulation of extract_ship_loadout: `for _, weapon in
nested_weapons: if weapon and weapon not in weapons: weapons.append(weapon)`. -/
def dedupWeaponNames (ws : List (String × String)) : List String :=
  ws.foldl (fun acc pw => if pw.2 ≠ "" ∧ pw.2 ∉ acc then acc ++ [pw.2] else acc) []

/-- A rack entry whose single nested weapon sits under a loadout chain: the
walk reaches it both through the loadout chain and through the direct
descendant enumeration. -/
def c6DoubleTree : Xml :=
  .elem "SItemPortLoadoutEntryParams"
    [("itemPortName", "p0"), ("entityClassName", "MRCK_RACK")]
    [ .elem "loadout" []
        [ .elem "SItemPortLoadoutManualParams" []
            [ .elem "entries" []
                [ .elem "SItemPortLoadoutEntryParams"
                    [("itemPortName", "p1"), ("entityClassName", "MISL_S02_X")] [] ] ] ] ]

/-- A chain of n+1 nested loadout entries with a single weapon at the bottom. -/
def deepChain : Nat → Xml
  | 0 => .elem "SItemPortLoadoutEntryParams"
      [("itemPortName", "pw_deep"), ("entityClassName", "MISL_S03_DEEP")] []
  | n + 1 => .elem "SItemPortLoadoutEntryParams"
      [("itemPortName", "pw_mid"), ("entityClassName", "MRCK_RX")] [deepChain n]

/-- Modelled from the spec: the depth-bounded walk the claim describes, with
the exemplar bound 8 — a call at depth 8 does not recurse further, truncating
that branch; same fuel device as parseLoadoutFuel. -/
def parseBoundedFuel : Nat → Xml → Nat → List (String × String)
  | 0, _, _ => []
  | fuel + 1, entry, depth =>
      let portName := attrGet entry "itemPortName"
      let entityClass := attrGet entry "entityClassName"
      let direct :=
        if entityClass ≠ "" ∧ isWeaponClass entityClass
        then [(portName, strLower entityClass)] else []
      if depth < 8 then
        let fromLoadouts :=
          (findAllTag entry "loadout").flatMap (fun l =>
            (findAllTag l "SItemPortLoadoutManualParams").flatMap (fun mp =>
              (findAllTag mp "entries").flatMap (fun es =>
                (findAllTag es "SItemPortLoadoutEntryParams").flatMap (fun se =>
                  parseBoundedFuel fuel se (depth + 1)))))
        let fromDirect :=
          (findAllTag entry "SItemPortLoadoutEntryParams").flatMap (fun se =>
            parseBoundedFuel fuel se (depth + 1))
        direct ++ fromLoadouts ++ fromDirect
      else direct

/-- Modelled from the spec: entry point of the claimed depth-bounded walk. -/
def parseBoundedClaim (entry : Xml) (depth : Nat) : List (String × String) :=
  parseBoundedFuel (xsize entry) entry depth

/- ---------------------------------------------------------------------
   src/extract_ship_parts_comprehensive.py : component HP aggregation
   (process_all_ships, powerplant/cooler/shield/quantum loops)
   --------------------------------------------------------------------- -/

/-- The per-entry HP resolution of the component loops: dict get with default
0 on the lowercased entity class, retried with the _scitem suffix stripped
when the first result is 0. -/
def resolveComponentHp (cat : List (String × Int)) (entity : String) : Int :=
  let hp := (dictGet cat (strLower entity)).getD 0
  if hp = 0 then (dictGet cat (replaceStr (strLower entity) "_scitem" "")).getD 0 else hp

/-- The powerplant aggregation loop of process_all_ships (identical in shape
for cooler, shield and quantum drive): running (total HP, count), with both
only incremented when the resolved HP is strictly positive. -/
def ppAggregate (cat : List (String × Int)) (pairs : List (String × String)) : Int × Nat :=
  pairs.foldl (fun acc pe =>
    let hp := resolveComponentHp cat pe.2
    if 0 < hp then (acc.1 + hp, acc.2 + 1) else acc) (0, 0)

/- ---------------------------------------------------------------------
   src/extract_ship_parts_comprehensive.py : extract_hardpoint_mappings
   --------------------------------------------------------------------- -/

/-- extract_hardpoint_mappings applied to the regex match list (port_name,
entity_class) in document order: mappings[port.lower()] = entity.lower(). -/
def buildMappings (ms : List (String × String)) : List (String × String) :=
  ms.foldl (fun acc m => dictInsert acc (strLower m.1) (strLower m.2)) []

/- ---------------------------------------------------------------------
   scripts/fix_missiles.py : extract_missiles_from_xml
   --------------------------------------------------------------------- -/

/-- Value of a digit run (models int() on the captured digits). -/
def digitsToNat (ds : List Char) : Nat :=
  ds.foldl (fun acc c => 10 * acc + (c.toNat - 48)) 0

/-- ASCII digit test. -/
def isDigitCh (c : Char) : Bool := 48 ≤ c.toNat && c.toNat ≤ 57

/-- Models re.search('MISL_S(\\d+)', ., re.I) on an uppercased character
list: scan left to right for the earliest position where MISL_S is followed
by at least one digit, and return the value of the maximal digit run there. -/
def scanMislSize : List Char → Option Nat
  | [] => none
  | c :: rest =>
      if chStarts "MISL_S".data (c :: rest) then
        let ds := ((c :: rest).drop 6).takeWhile isDigitCh
        if ds.isEmpty then scanMislSize rest else some (digitsToNat ds)
      else scanMislSize rest

/-- Size parsed from a missile entity class name, if any. -/
def mislSize (s : String) : Option Nat := scanMislSize (strUpper s).data

/-- The inner loop collecting (size, missile id) for every nested MISL_ entry
of a rack entry, with the given default size for unparseable names. -/
def missileEntriesOf (entry : Xml) (dflt : Nat) : List (Nat × String) :=
  (iterTag entry "SItemPortLoadoutEntryParams").filterMap (fun se =>
    let sec := attrGet se "entityClassName"
    if strStarts "MISL_" (strUpper sec) then some ((mislSize sec).getD dflt, strLower sec)
    else none)

/-- extract_missiles_from_xml: for every loadout entry, the MRCK_ branch
records nested missiles with default size 2; the elif torpedo branch would
record them with default size 5. -/
def extractMissilesFromXml (root : Xml) : List (String × List (Nat × String)) :=
  (iterTag root "SItemPortLoadoutEntryParams").foldl (fun acc entry =>
    let port := strLower (attrGet entry "itemPortName")
    let ec := attrGet entry "entityClassName"
    if strStarts "MRCK_" (strUpper ec) then
      let missiles := missileEntriesOf entry 2
      if missiles ≠ [] then dictInsert acc port missiles else acc
    else if strHas "torpedo" port && strStarts "MRCK_" (strUpper ec) then
      let torpedoes := missileEntriesOf entry 5
      if torpedoes ≠ [] then dictInsert acc port torpedoes else acc
    else acc) []

/-- extract_missiles_from_xml with the torpedo elif branch removed. -/
def extractMissilesNoTorp (root : Xml) : List (String × List (Nat × String)) :=
  (iterTag root "SItemPortLoadoutEntryParams").foldl (fun acc entry =>
    let port := strLower (attrGet entry "itemPortName")
    let ec := attrGet entry "entityClassName"
    if strStarts "MRCK_" (strUpper ec) then
      let missiles := missileEntriesOf entry 2
      if missiles ≠ [] then dictInsert acc port missiles else acc
    else acc) []

/-- A torpedo rack whose nested missile name carries no MISL_S<n> size. -/
def c10TorpTree : Xml :=
  .elem "ship" []
    [ .elem "SItemPortLoadoutEntryParams"
        [("itemPortName", "HARDPOINT_TORPEDO_1"), ("entityClassName", "MRCK_TORP_X")]
        [ .elem "SItemPortLoadoutEntryParams"
            [("itemPortName", "torp1"), ("entityClassName", "MISL_TORPEDO_BIG")] [] ] ]

/- =====================================================================
   Theorems
   ===================================================================== -/

/- Dictionary lemmas. -/

theorem dictGet_dictInsert {β : Type} (m : List (String × β)) (k k' : String) (v : β) :
    dictGet (dictInsert m k v) k' = if k = k' then some v else dictGet m k' := by
  induction m with
  | nil => simp [dictInsert, dictGet]
  | cons kv rest ih =>
      obtain ⟨k0, v0⟩ := kv
      by_cases h : k0 = k
      · subst h
        by_cases h2 : k0 = k'
        · subst h2; simp [dictInsert, dictGet]
        · simp [dictInsert, dictGet, h2]
      · by_cases h2 : k0 = k'
        · subst h2
          have : ¬ k = k0 := fun he => h he.symm
          simp [dictInsert, dictGet, h, this]
        · simp [dictInsert, dictGet, h, h2, ih]

theorem dictGet_foldl_char {α β : Type} (stepIns : List (String × β) → α → List (String × β))
    (g : α → Option β) (k : String)
    (hstep : ∀ m x, dictGet (stepIns m x) k
      = match g x with | some v => some v | none => dictGet m k) :
    ∀ (items : List α) (m : List (String × β)),
      dictGet (items.foldl stepIns m) k
        = match lastOpt g items with | some v => some v | none => dictGet m k := by
  intro items
  induction items with
  | nil => intro m; simp [lastOpt]
  | cons a t ih =>
      intro m
      simp only [List.foldl_cons]
      rw [ih (stepIns m a), hstep]
      simp only [lastOpt]
      cases h : lastOpt g t <;> cases hb : g a <;> simp

/- Merge lemmas (update_ship_json_files). -/

theorem mergeComp_components_other (hp : HpKey → Int) (acc : ShipData × Bool) (k q : HpKey)
    (h : q ≠ k) : (mergeComp hp acc k).1.components q = acc.1.components q := by
  unfold mergeComp
  split
  · rfl
  · simp [h]

theorem mergeComp_components_self (hp : HpKey → Int) (acc : ShipData × Bool) (k : HpKey) :
    (mergeComp hp acc k).1.components k = some (hp k) := by
  unfold mergeComp
  split
  · assumption
  · simp

theorem mergeComp_thr (hp : HpKey → Int) (acc : ShipData × Bool) (k : HpKey) :
    (mergeComp hp acc k).1.thrustersTotalHp = acc.1.thrustersTotalHp := by
  unfold mergeComp
  split <;> rfl

theorem mergeThr_components (hp : HpKey → Int) (acc : ShipData × Bool) (k : HpKey) :
    (mergeThr hp acc k).1.components = acc.1.components := by
  unfold mergeThr
  split
  · split <;> rfl
  · rfl

theorem mergeThr_thr_self (hp : HpKey → Int) (acc : ShipData × Bool)
    (h : acc.1.thrustersTotalHp = some (hp HpKey.thruster)) (k : HpKey) :
    (mergeThr hp acc k).1.thrustersTotalHp = some (hp HpKey.thruster) := by
  unfold mergeThr
  by_cases hk : k = HpKey.thruster
  · subst hk
    rw [if_pos rfl]
    by_cases h2 : acc.1.thrustersTotalHp = some (hp HpKey.thruster)
    · rw [if_pos h2]; exact h
    · rw [if_neg h2]
  · rw [if_neg hk]; exact h

theorem mergeStep_components_preserved (hp : HpKey → Int) (acc : ShipData × Bool) (k q : HpKey)
    (h : q ≠ k ∨ ¬ 0 < hp k) : (mergeStep hp acc k).1.components q = acc.1.components q := by
  unfold mergeStep
  split
  · rename_i hpos
    rw [mergeThr_components]
    rcases h with h | h
    · exact mergeComp_components_other hp acc k q h
    · exact absurd hpos h
  · rfl

theorem mergeStep_components_set (hp : HpKey → Int) (acc : ShipData × Bool) (k : HpKey)
    (h : 0 < hp k) : (mergeStep hp acc k).1.components k = some (hp k) := by
  unfold mergeStep
  split
  · rw [mergeThr_components]
    exact mergeComp_components_self hp acc k
  · rename_i hneg; exact absurd h hneg

theorem mergeStep_components_keep (hp : HpKey → Int) (acc : ShipData × Bool) (k q : HpKey)
    (h : acc.1.components q = some (hp q)) :
    (mergeStep hp acc k).1.components q = some (hp q) := by
  by_cases hq : q = k
  · subst hq
    by_cases hpos : 0 < hp q
    · exact mergeStep_components_set hp acc q hpos
    · rw [mergeStep_components_preserved hp acc q q (Or.inr hpos)]; exact h
  · rw [mergeStep_components_preserved hp acc k q (Or.inl hq)]; exact h

theorem mergeStep_thr_keep (hp : HpKey → Int) (acc : ShipData × Bool) (k : HpKey)
    (h : acc.1.thrustersTotalHp = some (hp HpKey.thruster)) :
    (mergeStep hp acc k).1.thrustersTotalHp = some (hp HpKey.thruster) := by
  unfold mergeStep
  split
  · apply mergeThr_thr_self
    rw [mergeComp_thr]; exact h
  · exact h

theorem mergeStep_thr_set (hp : HpKey → Int) (acc : ShipData × Bool)
    (h : 0 < hp HpKey.thruster) :
    (mergeStep hp acc HpKey.thruster).1.thrustersTotalHp = some (hp HpKey.thruster) := by
  unfold mergeStep
  rw [if_pos h]
  unfold mergeThr
  rw [if_pos rfl]
  by_cases h2 : (mergeComp hp acc HpKey.thruster).1.thrustersTotalHp = some (hp HpKey.thruster)
  · rw [if_pos h2]; exact h2
  · rw [if_neg h2]

theorem mergeStep_noop (hp : HpKey → Int) (acc : ShipData × Bool) (k : HpKey)
    (hc : 0 < hp k → acc.1.components k = some (hp k))
    (ht : k = HpKey.thruster → 0 < hp k → acc.1.thrustersTotalHp = some (hp k)) :
    mergeStep hp acc k = acc := by
  unfold mergeStep
  split
  · rename_i hpos
    have hcomp : mergeComp hp acc k = acc := by
      unfold mergeComp
      rw [if_pos (hc hpos)]
    rw [hcomp]
    unfold mergeThr
    split
    · rename_i hk
      rw [if_pos (ht hk hpos)]
    · rfl
  · rfl

theorem foldl_mergeStep_components_zero (hp : HpKey → Int) :
    ∀ (ks : List HpKey) (acc : ShipData × Bool) (q : HpKey), ¬ 0 < hp q →
      (ks.foldl (mergeStep hp) acc).1.components q = acc.1.components q := by
  intro ks
  induction ks with
  | nil => intro acc q _; rfl
  | cons a t ih =>
      intro acc q h
      simp only [List.foldl_cons]
      rw [ih (mergeStep hp acc a) q h]
      by_cases hq : q = a
      · subst hq
        exact mergeStep_components_preserved hp acc q q (Or.inr h)
      · exact mergeStep_components_preserved hp acc a q (Or.inl hq)

theorem foldl_mergeStep_components_keep (hp : HpKey → Int) :
    ∀ (ks : List HpKey) (acc : ShipData × Bool) (q : HpKey),
      acc.1.components q = some (hp q) →
      (ks.foldl (mergeStep hp) acc).1.components q = some (hp q) := by
  intro ks
  induction ks with
  | nil => intro acc q h; exact h
  | cons a t ih =>
      intro acc q h
      simp only [List.foldl_cons]
      exact ih (mergeStep hp acc a) q (mergeStep_components_keep hp acc a q h)

theorem foldl_mergeStep_components_set (hp : HpKey → Int) :
    ∀ (ks : List HpKey) (acc : ShipData × Bool) (q : HpKey),
      q ∈ ks → 0 < hp q →
      (ks.foldl (mergeStep hp) acc).1.components q = some (hp q) := by
  intro ks
  induction ks with
  | nil => intro acc q h; exact absurd h (List.not_mem_nil q)
  | cons a t ih =>
      intro acc q h hpos
      simp only [List.foldl_cons]
      rcases List.mem_cons.mp h with rfl | h2
      · exact foldl_mergeStep_components_keep hp t (mergeStep hp acc q) q
          (mergeStep_components_set hp acc q hpos)
      · exact ih (mergeStep hp acc a) q h2 hpos

theorem foldl_mergeStep_thr_keep (hp : HpKey → Int) :
    ∀ (ks : List HpKey) (acc : ShipData × Bool),
      acc.1.thrustersTotalHp = some (hp HpKey.thruster) →
      (ks.foldl (mergeStep hp) acc).1.thrustersTotalHp = some (hp HpKey.thruster) := by
  intro ks
  induction ks with
  | nil => intro acc h; exact h
  | cons a t ih =>
      intro acc h
      simp only [List.foldl_cons]
      exact ih (mergeStep hp acc a) (mergeStep_thr_keep hp acc a h)

theorem foldl_mergeStep_thr_set (hp : HpKey → Int) :
    ∀ (ks : List HpKey) (acc : ShipData × Bool),
      HpKey.thruster ∈ ks → 0 < hp HpKey.thruster →
      (ks.foldl (mergeStep hp) acc).1.thrustersTotalHp = some (hp HpKey.thruster) := by
  intro ks
  induction ks with
  | nil => intro acc h; exact absurd h (List.not_mem_nil _)
  | cons a t ih =>
      intro acc h hpos
      simp only [List.foldl_cons]
      rcases List.mem_cons.mp h with he | h2
      · subst he
        exact foldl_mergeStep_thr_keep hp t (mergeStep hp acc HpKey.thruster)
          (mergeStep_thr_set hp acc hpos)
      · exact ih (mergeStep hp acc a) h2 hpos

theorem foldl_mergeStep_noop (hp : HpKey → Int) :
    ∀ (ks : List HpKey) (acc : ShipData × Bool),
      (∀ k ∈ ks, 0 < hp k → acc.1.components k = some (hp k)) →
      (∀ k ∈ ks, k = HpKey.thruster → 0 < hp k → acc.1.thrustersTotalHp = some (hp k)) →
      ks.foldl (mergeStep hp) acc = acc := by
  intro ks
  induction ks with
  | nil => intro acc _ _; rfl
  | cons a t ih =>
      intro acc hc ht
      have hstep : mergeStep hp acc a = acc :=
        mergeStep_noop hp acc a (hc a (List.mem_cons_self a t))
          (ht a (List.mem_cons_self a t))
      simp only [List.foldl_cons, hstep]
      exact ih acc (fun k hk => hc k (List.mem_cons_of_mem a hk))
        (fun k hk => ht k (List.mem_cons_of_mem a hk))

/-- Claim C1: in the merge of update_ship_json_files, a category whose
aggregate total is 0 never overwrites the stored value: the merged record's
components entry for that key equals the stored entry, whatever it was. -/
theorem merge_zero_retains_stored (s : ShipData) (hp : HpKey → Int) (k : HpKey)
    (h : hp k = 0) : (mergeShip s hp).1.components k = s.components k := by
  unfold mergeShip
  exact foldl_mergeStep_components_zero hp hpKeys (s, false) k (by rw [h]; decide)

/-- Witness for C1: a stored record holding 7 for the turret key and an
aggregate reporting 0 for it; the merged record still holds 7. -/
theorem merge_zero_retains_stored_witness :
    zeroAggregate HpKey.turret = 0
      ∧ (mergeShip sampleStoredShip zeroAggregate).1.components HpKey.turret
          = sampleStoredShip.components HpKey.turret :=
  ⟨rfl, merge_zero_retains_stored sampleStoredShip zeroAggregate HpKey.turret rfl⟩

/-- Claim C2: the merge of update_ship_json_files is idempotent — merging the
same aggregate a second time changes no field and returns changed = false, so
the second run performs no persistence write. -/
theorem merge_idempotent (s : ShipData) (hp : HpKey → Int) :
    mergeShip (mergeShip s hp).1 hp = ((mergeShip s hp).1, false) := by
  have hc : ∀ k ∈ hpKeys, 0 < hp k →
      ((mergeShip s hp).1, false).1.components k = some (hp k) := by
    intro k hk hpos
    exact foldl_mergeStep_components_set hp hpKeys (s, false) k hk hpos
  have ht : ∀ k ∈ hpKeys, k = HpKey.thruster → 0 < hp k →
      ((mergeShip s hp).1, false).1.thrustersTotalHp = some (hp k) := by
    intro k _ hk hpos
    subst hk
    exact foldl_mergeStep_thr_set hp hpKeys (s, false) (by decide) hpos
  exact foldl_mergeStep_noop hp hpKeys ((mergeShip s hp).1, false) hc ht

/- Component HP lookup (build_component_hp_lookup). -/

theorem buildHpLookup_fst (files : List CompFile) :
    ∀ (acc : List (String × Int) × List (String × String)),
      (files.foldl hpLookupStep acc).1
        = files.foldl (fun m f => match f.health with
            | some h => dictInsert m (strLower f.name) h
            | none => m) acc.1 := by
  induction files with
  | nil => intro acc; rfl
  | cons f t ih =>
      intro acc
      simp only [List.foldl_cons]
      rw [ih]
      rfl

/-- Counterexample to claim C3: two component files whose names collide after
normalization; the catalog retains the health of the second (later) file, not
the first. -/
theorem build_lookup_first_wins_false :
    dictGet (buildComponentHpLookup
        [⟨"comp_a", "", some 100⟩, ⟨"COMP_A", "", some 200⟩]).1 "comp_a" = some 200
      ∧ some (200 : Int) ≠ some (100 : Int) := by
  constructor
  · decide
  · decide

/-- Claim C3 (amended): on a normalized-key collision the record from the
LAST file encountered in traversal order wins — plain dict assignment
overwrites — so the lookup equals the health of the last file with that
lowercased name among the files that parsed a health value. -/
theorem build_lookup_last_wins (files : List CompFile) (k : String) :
    dictGet (buildComponentHpLookup files).1 k
      = lastOpt (fun f => match f.health with
          | some h => if strLower f.name = k then some h else none
          | none => none) files := by
  unfold buildComponentHpLookup
  rw [buildHpLookup_fst]
  have h := dictGet_foldl_char
    (fun m f => match f.health with
      | some h => dictInsert m (strLower f.name) h
      | none => m)
    (fun f => match f.health with
      | some h => if strLower f.name = k then some h else none
      | none => none)
    k
    (by
      intro m f
      cases hf : f.health with
      | none => simp [hf]
      | some h =>
          simp only [hf]
          rw [dictGet_dictInsert]
          by_cases hk : strLower f.name = k
          · rw [if_pos hk, if_pos hk]
          · rw [if_neg hk, if_neg hk])
    files []
  rw [h]
  cases lastOpt (fun f => match f.health with
      | some h => if strLower f.name = k then some h else none
      | none => none) files <;> simp [dictGet]

/- Hardpoint mappings (extract_hardpoint_mappings). -/

/-- Claim C9: the mapping dict is keyed by the lowercased port name, so the
stored entity for a key is exactly the lowercased entity of the LAST match
with that port name (case-insensitively); earlier duplicates are dropped. -/
theorem mappings_last_entry_wins (ms : List (String × String)) (k : String) :
    dictGet (buildMappings ms) k
      = lastOpt (fun m => if strLower m.1 = k then some (strLower m.2) else none) ms := by
  unfold buildMappings
  have h := dictGet_foldl_char
    (fun acc m => dictInsert acc (strLower m.1) (strLower m.2))
    (fun m => if strLower m.1 = k then some (strLower m.2) else none)
    k
    (by
      intro m x
      dsimp only
      rw [dictGet_dictInsert]
      by_cases hk : strLower x.1 = k
      · rw [if_pos hk, if_pos hk]
      · rw [if_neg hk, if_neg hk])
    ms []
  rw [h]
  cases lastOpt (fun m => if strLower m.1 = k then some (strLower m.2) else none) ms <;>
    simp [dictGet]

/- Hardpoint categorization (categorize_hardpoints). -/

theorem categorize_foldl (ms : List (String × String)) :
    ∀ (acc : HCat → List (String × String)) (c : HCat),
      (ms.foldl (fun acc m c => if c = classifyPair m.1 m.2 then acc c ++ [m] else acc c) acc) c
        = acc c ++ ms.filter (fun m => classifyPair m.1 m.2 == c) := by
  induction ms with
  | nil => intro acc c; simp
  | cons m t ih =>
      intro acc c
      simp only [List.foldl_cons, List.filter_cons]
      rw [ih]
      by_cases hc : c = classifyPair m.1 m.2
      · rw [if_pos hc]
        have : (classifyPair m.1 m.2 == c) = true := by
          rw [hc]; exact beq_self_eq_true _
        rw [this]
        simp
      · rw [if_neg hc]
        have : (classifyPair m.1 m.2 == c) = false := by
          rw [beq_eq_false_iff_ne]
          exact fun he => hc he.symm
        rw [this]
        simp

theorem classifyPair_eq_spec (p e : String) : classifyPair p e = classifySpecOrdered p e := by
  unfold classifyPair classifySpecOrdered ruleTable
  by_cases h1 : (strHas "thruster" p || strHas "thruster" e) = true
  · simp [List.find?, h1]
  by_cases h2 : (strHas "turret" p || strHas "turret" e) = true
  · simp [List.find?, h1, h2]
  by_cases h3 : (strHas "armor" p || strHas "armr_" e) = true
  · simp [List.find?, h1, h2, h3]
  by_cases h4 : strHas "power" p = true
  · simp [List.find?, h1, h2, h3, h4]
  by_cases h5 : strHas "cooler" p = true
  · simp [List.find?, h1, h2, h3, h4, h5]
  by_cases h6 : strHas "shield" p = true
  · simp [List.find?, h1, h2, h3, h4, h5, h6]
  by_cases h7 : strHas "quantum" p = true
  · simp [List.find?, h1, h2, h3, h4, h5, h6, h7]
  by_cases h8 : (strHas "weapon" p || strHas "gun" p) = true
  · simp [List.find?, h1, h2, h3, h4, h5, h6, h7, h8]
  by_cases h9 : (strHas "missile" p || strHas "pylon" p) = true
  · simp [List.find?, h1, h2, h3, h4, h5, h6, h7, h8, h9]
  simp [List.find?, h1, h2, h3, h4, h5, h6, h7, h8, h9]

/-- Counterexample to claim C4: a pair whose entity id contains the power
keyword but whose port name does not is NOT classified powerplant — the
powerplant rule tests the port name only, so the pair falls through to
other. -/
theorem classify_entity_power_false :
    categorizeHardpoints [("slot_misc", "super_power_unit")] HCat.powerplant = []
      ∧ categorizeHardpoints [("slot_misc", "super_power_unit")] HCat.other
          = [("slot_misc", "super_power_unit")] := by
  constructor
  · decide
  · decide

/-- Claim C4 (amended): categorize_hardpoints places every pair in the bucket
of the first matching rule of the fixed ordered table thruster, turret,
armor, powerplant, cooler, shield, quantum_drive, weapon, missile, else
other; the thruster and turret rules test both the port name and the entity
id, the armor rule tests the armor keyword on the port or the armr_ marker in
the entity id, and the powerplant, cooler, shield, quantum, weapon and
missile rules test the port name only (so a pair matching both the turret and
weapon keywords is classified turret). -/
theorem categorize_matches_ordered_rules (ms : List (String × String)) (c : HCat) :
    categorizeHardpoints ms c = ms.filter (fun m => classifySpecOrdered m.1 m.2 == c) := by
  unfold categorizeHardpoints
  rw [categorize_foldl]
  simp only [List.nil_append]
  apply List.filter_congr
  intro m _
  rw [classifyPair_eq_spec]

/- Thruster resolution (process_all_ships). -/

theorem approxScan_eq_find (e : String) :
    ∀ td : List (String × Int),
      approxThrusterScan e td
        = match td.find? (fun kv => strHas e kv.1 || strHas kv.1 e) with
          | some kv => kv.2
          | none => 0 := by
  intro td
  induction td with
  | nil => rfl
  | cons kv rest ih =>
      simp only [approxThrusterScan, List.find?]
      by_cases h : (strHas e kv.1 || strHas kv.1 e) = true
      · rw [if_pos h, h]
      · have hf : (strHas e kv.1 || strHas kv.1 e) = false := by
          cases hx : strHas e kv.1 || strHas kv.1 e
          · rfl
          · exact absurd hx h
        rw [if_neg h, hf, ih]

/-- Counterexample to claim C5: the approximate step applies NO separator
normalization.  For the raw id thrmainx and the catalog key thr_main_x the
claimed normalize-then-substring resolver finds the key (health 500), while
the source's resolver finds nothing and yields 0. -/
theorem resolve_normalization_false :
    resolveThrusterHp [("thr_main_x", 500)] "thrmainx" = 0
      ∧ resolveThrusterHpClaim [("thr_main_x", 500)] "thrmainx" = 500 := by
  constructor
  · decide
  · decide

/-- Claim C5 (amended): the thruster resolver tries exact (lowercased) dict
lookup first, and only when that fails scans the catalog keys in their stable
build order, returning the first key such that the un-normalized lowercased
raw id is a substring of the key or vice versa; no separator stripping is
applied, and on exact success the approximate step is never consulted. -/
theorem resolve_exact_then_first_substring (td : List (String × Int)) (entity : String) :
    resolveThrusterHp td entity = resolveThrusterHpOrdered td entity := by
  unfold resolveThrusterHp resolveThrusterHpOrdered
  cases h : dictGet td (strLower entity) with
  | some v => rfl
  | none => rw [approxScan_eq_find]

/- Component HP aggregation (process_all_ships). -/

/-- Counterexample to claim C8: a powerplant entry resolving to a catalog
component with health 0 does NOT increment the category count — the whole
update is guarded by hp > 0 — whereas the claim says the count is
incremented. -/
theorem zero_health_not_counted :
    dictGet [("pp_a", (0 : Int))] "pp_a" = some 0
      ∧ (ppAggregate [("pp_a", 0)] [("hardpoint_power_1", "pp_a")]).2 = 0 := by
  constructor
  · decide
  · decide

/-- Claim C8 (amended): an attachment entry whose entity resolves to health 0
is skipped entirely by the component aggregation — it increments neither the
count nor the total; only strictly positive resolved health values change the
aggregate. -/
theorem zero_health_entry_skipped (cat : List (String × Int))
    (pairs : List (String × String)) (p e : String)
    (h : resolveComponentHp cat e = 0) :
    ppAggregate cat (pairs ++ [(p, e)]) = ppAggregate cat pairs := by
  unfold ppAggregate
  rw [List.foldl_append]
  simp [h]

/-- Witness for C8 (amended): appending an entry resolving to health 0 leaves
the powerplant aggregate unchanged. -/
theorem zero_health_entry_skipped_witness :
    resolveComponentHp [("pp_a", 0)] "pp_a" = 0
      ∧ ppAggregate [("pp_a", 0)] [("hardpoint_power_1", "pp_a")]
          = ppAggregate [("pp_a", 0)] [] :=
  ⟨by decide, zero_health_entry_skipped [("pp_a", 0)] [] "hardpoint_power_1" "pp_a" (by decide)⟩

/- Loadout walk (parse_loadout_entry). -/

/-- Counterexample to claim C6: the walk keeps no visited set — a weapon
nested under a loadout chain is reached both through the loadout chain and
through the direct descendant enumeration, so its node contributes twice to
the flat result. -/
theorem walk_contributes_twice :
    parseLoadoutEntry c6DoubleTree 0 = [("p1", "misl_s02_x"), ("p1", "misl_s02_x")]
      ∧ ¬ (parseLoadoutEntry c6DoubleTree 0).Nodup := by
  constructor
  · decide
  · decide

theorem dedup_foldl_nodup :
    ∀ (ws : List (String × String)) (acc : List String), acc.Nodup →
      (ws.foldl (fun acc pw => if pw.2 ≠ "" ∧ pw.2 ∉ acc then acc ++ [pw.2] else acc) acc).Nodup := by
  intro ws
  induction ws with
  | nil => intro acc h; exact h
  | cons pw t ih =>
      intro acc h
      simp only [List.foldl_cons]
      by_cases hc : pw.2 ≠ "" ∧ pw.2 ∉ acc
      · rw [if_pos hc]
        exact ih (acc ++ [pw.2]) (by simp [List.nodup_append, h, hc.2])
      · rw [if_neg hc]
        exact ih acc h

/-- Claim C6 (amended): the walk keeps no visited set and a nested node can
contribute to the flat result more than once (traversal still terminates on
every finite attachment tree); double counting is prevented only at the
caller, where extract_ship_loadout deduplicates by weapon name, so each
weapon name appears at most once in a hardpoint's weapon list. -/
theorem walk_dedup_names_nodup (entry : Xml) (depth : Nat) :
    (dedupWeaponNames (parseLoadoutEntry entry depth)).Nodup :=
  dedup_foldl_nodup (parseLoadoutEntry entry depth) [] List.nodup_nil

theorem parseFuel_succ (fuel : Nat) (entry : Xml) (depth : Nat) :
    parseLoadoutFuel (fuel + 1) entry depth
      = (if attrGet entry "entityClassName" ≠ "" ∧ isWeaponClass (attrGet entry "entityClassName")
          then [(attrGet entry "itemPortName", strLower (attrGet entry "entityClassName"))]
          else [])
        ++ ((findAllTag entry "loadout").flatMap (fun l =>
              (findAllTag l "SItemPortLoadoutManualParams").flatMap (fun mp =>
                (findAllTag mp "entries").flatMap (fun es =>
                  (findAllTag es "SItemPortLoadoutEntryParams").flatMap (fun se =>
                    parseLoadoutFuel fuel se (depth + 1))))))
        ++ ((findAllTag entry "SItemPortLoadoutEntryParams").flatMap (fun se =>
              parseLoadoutFuel fuel se (depth + 1))) := rfl

theorem parseFuel_depth_zero : ∀ (fuel : Nat) (e : Xml) (d : Nat),
    parseLoadoutFuel fuel e d = parseLoadoutFuel fuel e 0 := by
  intro fuel
  induction fuel with
  | zero => intro e d; rfl
  | succ f ih =>
      intro e d
      rw [parseFuel_succ, parseFuel_succ]
      simp only [ih]

theorem xsize_deepChain : ∀ n, xsize (deepChain n) = n + 1 := by
  intro n
  induction n with
  | zero => rfl
  | succ m ih =>
      simp only [deepChain, xsize, xsizeList]
      rw [ih]
      omega

theorem tagOf_deepChain : ∀ n, tagOf (deepChain n) = "SItemPortLoadoutEntryParams" := by
  intro n
  cases n <;> rfl

theorem deep_weapon_reached : ∀ (n d : Nat),
    ("pw_deep", "misl_s03_deep") ∈ parseLoadoutFuel (n + 1) (deepChain n) d := by
  intro n
  induction n with
  | zero =>
      intro d
      have h : parseLoadoutFuel 1 (deepChain 0) d = [("pw_deep", "misl_s03_deep")] := rfl
      rw [h]
      exact List.mem_singleton.mpr rfl
  | succ m ih =>
      intro d
      have hmem : deepChain m ∈ findAllTag (deepChain (m + 1)) "SItemPortLoadoutEntryParams" := by
        unfold findAllTag
        apply List.mem_filter.mpr
        constructor
        · show deepChain m ∈ descendants (deepChain (m + 1))
          simp only [deepChain, descendants, descList]
          exact List.mem_cons_self _ _
        · simp [tagOf_deepChain]
      rw [parseFuel_succ]
      apply List.mem_append.mpr
      right
      apply List.mem_flatMap.mpr
      exact ⟨deepChain m, hmem, ih (d + 1)⟩

set_option maxRecDepth 100000 in
/-- Counterexample to claim C7: on a chain of ten nested loadout entries the
source walk reaches the bottom weapon through call chains of depth up to 9,
yielding 256 contributions, while the claimed depth-8-bounded walk truncates
the full-depth branch and yields only 255 — so recursion does proceed past
the claimed bound and nothing is truncated. -/
theorem walk_depth_bound_false :
    (parseLoadoutEntry (deepChain 9) 0).length = 256
      ∧ (parseBoundedClaim (deepChain 9) 0).length = 255 := by
  constructor
  · decide
  · decide

/-- Claim C7 (amended): parse_loadout_entry enforces NO depth bound: the
depth counter is threaded through the recursion but never consulted, so the
walk's result is independent of the starting depth, and a weapon at any
nesting depth n still contributes to the result; termination comes from the
recursion descending only to strict descendants, not from any bound. -/
theorem walk_no_depth_bound :
    (∀ (e : Xml) (d d' : Nat), parseLoadoutEntry e d = parseLoadoutEntry e d')
      ∧ (∀ (n d : Nat), ("pw_deep", "misl_s03_deep") ∈ parseLoadoutEntry (deepChain n) d) := by
  constructor
  · intro e d d'
    unfold parseLoadoutEntry
    rw [parseFuel_depth_zero (xsize e) e d, parseFuel_depth_zero (xsize e) e d']
  · intro n d
    unfold parseLoadoutEntry
    rw [xsize_deepChain]
    exact deep_weapon_reached n d

/- Missile extraction (extract_missiles_from_xml). -/

/-- Claim C10: the torpedo elif branch of extract_missiles_from_xml is
unreachable — its guard requires the MRCK_ marker already consumed by the
first branch — so the function behaves exactly like the version with the
branch removed, and a torpedo rack's nested missile without a parseable
MISL_S size is recorded with the general default 2, never the torpedo
default 5. -/
theorem torpedo_branch_unreachable :
    (∀ root : Xml, extractMissilesFromXml root = extractMissilesNoTorp root)
      ∧ dictGet (extractMissilesFromXml c10TorpTree) "hardpoint_torpedo_1"
          = some [(2, "misl_torpedo_big")] := by
  constructor
  · intro root
    unfold extractMissilesFromXml extractMissilesNoTorp
    have hstep : (fun (acc : List (String × List (Nat × String))) (entry : Xml) =>
        let port := strLower (attrGet entry "itemPortName")
        let ec := attrGet entry "entityClassName"
        if strStarts "MRCK_" (strUpper ec) then
          let missiles := missileEntriesOf entry 2
          if missiles ≠ [] then dictInsert acc port missiles else acc
        else if strHas "torpedo" port && strStarts "MRCK_" (strUpper ec) then
          let torpedoes := missileEntriesOf entry 5
          if torpedoes ≠ [] then dictInsert acc port torpedoes else acc
        else acc)
        = (fun (acc : List (String × List (Nat × String))) (entry : Xml) =>
        let port := strLower (attrGet entry "itemPortName")
        let ec := attrGet entry "entityClassName"
        if strStarts "MRCK_" (strUpper ec) then
          let missiles := missileEntriesOf entry 2
          if missiles ≠ [] then dictInsert acc port missiles else acc
        else acc) := by
      funext acc entry
      by_cases h : strStarts "MRCK_" (strUpper (attrGet entry "entityClassName")) = true
      · simp only [h, if_true]
      · simp [h]
    rw [hstep]
  · decide
